import Mathlib

/-!
Verification development for the `gosecurityheaders` utility (src/main.go).

The program fetches HTTP response headers for a list of URLs, checks which of
six fixed security headers are present, prints results (full mode or
missing-only mode) and optionally exports them to CSV.

Modelling choices (shallow embedding):
* Go strings are modelled as Lean `String` (lists of unicode scalar values);
  the header names involved are ASCII, where Go bytes and Lean chars agree.
* `http.Header` (`map[string][]string`) and the other Go maps are modelled as
  association lists with insert-or-overwrite semantics (`AssocMap.insert`);
  the concrete list order is the insertion order of the keys.  Go map
  ITERATION order is unspecified, so every place the source ranges over a map
  is parameterised by an iteration order, constrained in the theorems to be a
  permutation of the map entries.
* The HTTP client is modelled by per-URL fetch outcomes (`Except` error or a
  response header set); response header sets as produced by net/http are
  built from raw wire (name, value) pairs with the textproto key
  canonicalisation (`buildHeader`).
* Terminal colour wrapping (fatih/color SprintFunc) is presentation only and
  is modelled as the identity on the wrapped string.
-/

/-! ## Association-list model of Go maps -/

/-- Lookup in a Go map modelled as an association list. -/
def AssocMap.lookup {β : Type} (m : List (String × β)) (k : String) : Option β :=
  match m with
  | [] => none
  | p :: rest => if p.1 = k then some p.2 else AssocMap.lookup rest k

/-- Go map assignment `m[k] = v`: overwrite in place, or append a new key. -/
def AssocMap.insert {β : Type} (m : List (String × β)) (k : String) (v : β) :
    List (String × β) :=
  match m with
  | [] => [(k, v)]
  | p :: rest => if p.1 = k then (k, v) :: rest else p :: AssocMap.insert rest k v

theorem AssocMap.lookup_insert {β : Type} (m : List (String × β)) (k k' : String) (v : β) :
    AssocMap.lookup (AssocMap.insert m k v) k' =
      if k = k' then some v else AssocMap.lookup m k' := by
  induction m with
  | nil => simp [AssocMap.insert, AssocMap.lookup]
  | cons p rest ih =>
    by_cases h1 : p.1 = k
    · by_cases h2 : k = k' <;> simp [AssocMap.insert, AssocMap.lookup, h1, h2]
    · by_cases h2 : p.1 = k'
      · have hne : ¬ k = k' := fun he => h1 (he ▸ h2)
        have hne' : ¬ k' = k := fun he => hne he.symm
        simp [AssocMap.insert, AssocMap.lookup, h1, h2, hne, hne']
      · simp [AssocMap.insert, AssocMap.lookup, h1, h2, ih]

/-- The keys of a map, in insertion order. -/
def AssocMap.keys {β : Type} (m : List (String × β)) : List String :=
  m.map Prod.fst

theorem AssocMap.keys_insert {β : Type} (m : List (String × β)) (k : String) (v : β) :
    AssocMap.keys (AssocMap.insert m k v) =
      if k ∈ AssocMap.keys m then AssocMap.keys m else AssocMap.keys m ++ [k] := by
  induction m with
  | nil => simp [AssocMap.insert, AssocMap.keys]
  | cons p rest ih =>
    by_cases h1 : p.1 = k
    · simp [AssocMap.insert, AssocMap.keys, h1]
    · have hne : ¬ k = p.1 := fun he => h1 he.symm
      by_cases h2 : k ∈ AssocMap.keys rest <;>
        simp [AssocMap.keys] at h2 <;>
        simp [AssocMap.insert, AssocMap.keys, h1, h2, hne] at ih ⊢ <;>
        simp [ih, h2, hne]

theorem AssocMap.isSome_lookup_insert {β : Type} (m : List (String × β))
    (k k' : String) (v : β) :
    (AssocMap.lookup (AssocMap.insert m k v) k').isSome =
      ((k = k' : Bool) || (AssocMap.lookup m k').isSome) := by
  rw [AssocMap.lookup_insert]
  by_cases h : k = k' <;> simp [h]

/-! ## Character utilities (ASCII case folding, Go textproto canonicalisation) -/

/-- ASCII lowercasing of one character (Go `c | 0x20` on letters). -/
def asciiLowerChar (c : Char) : Char :=
  if 65 ≤ c.toNat ∧ c.toNat ≤ 90 then Char.ofNat (c.toNat + 32) else c

/-- ASCII lowercasing of a string, the usual notion of case-insensitive
comparison for HTTP header field names. -/
def asciiLower (s : String) : String :=
  String.mk (s.data.map asciiLowerChar)

/-- Valid header-field byte per Go net/textproto (`isTokenTable`): digits,
letters, and the token punctuation characters. -/
def validHeaderFieldByte (c : Char) : Bool :=
  decide ((48 ≤ c.toNat ∧ c.toNat ≤ 57) ∨ (97 ≤ c.toNat ∧ c.toNat ≤ 122) ∨
    (65 ≤ c.toNat ∧ c.toNat ≤ 90) ∨
    c.toNat = 33 ∨ c.toNat = 35 ∨ c.toNat = 36 ∨ c.toNat = 37 ∨ c.toNat = 38 ∨
    c.toNat = 39 ∨ c.toNat = 42 ∨ c.toNat = 43 ∨ c.toNat = 45 ∨ c.toNat = 46 ∨
    c.toNat = 94 ∨ c.toNat = 95 ∨ c.toNat = 96 ∨ c.toNat = 124 ∨ c.toNat = 126)

/-- One character of the textproto canonicalisation loop: uppercase a letter
that starts a word (`upper` set), lowercase a letter inside a word. -/
def canonChar (upper : Bool) (c : Char) : Char :=
  if upper ∧ 97 ≤ c.toNat ∧ c.toNat ≤ 122 then Char.ofNat (c.toNat - 32)
  else if ¬ upper ∧ 65 ≤ c.toNat ∧ c.toNat ≤ 90 then Char.ofNat (c.toNat + 32)
  else c

/-- The textproto canonicalisation loop over the characters of a key; the
Boolean flag records whether the previous character was a hyphen (word start). -/
def canonList (upper : Bool) : List Char → List Char
  | [] => []
  | c :: cs =>
    let c2 := canonChar upper c
    c2 :: canonList (c2 = '-') cs

/-- Go `textproto.CanonicalMIMEHeaderKey`: keys containing an invalid header
field byte are returned unchanged, otherwise the case of each letter is
normalised (uppercase at the start and after each hyphen, lowercase inside
words). -/
def canonicalMIMEHeaderKey (s : String) : String :=
  if s.data.all validHeaderFieldByte then String.mk (canonList true s.data) else s


theorem toNat_charOfNat {n : Nat} (h : n < 55296) : (Char.ofNat n).toNat = n := by
  rw [Char.ofNat, dif_pos (Or.inl h)]
  rfl

theorem charEq_of_toNat {c d : Char} (h : c.toNat = d.toNat) : c = d :=
  Char.ext (UInt32.ext h)

theorem toNat_asciiLowerChar (c : Char) :
    (asciiLowerChar c).toNat =
      if 65 ≤ c.toNat ∧ c.toNat ≤ 90 then c.toNat + 32 else c.toNat := by
  rw [asciiLowerChar]
  split_ifs with h
  · exact toNat_charOfNat (by omega)
  · rfl

theorem toNat_canonChar_true (c : Char) :
    (canonChar true c).toNat =
      if 97 ≤ c.toNat ∧ c.toNat ≤ 122 then c.toNat - 32 else c.toNat := by
  rw [canonChar]
  by_cases h : 97 ≤ c.toNat ∧ c.toNat ≤ 122
  · rw [if_pos ⟨rfl, h⟩, if_pos h]
    exact toNat_charOfNat (by omega)
  · rw [if_neg (fun hc => h hc.2), if_neg (fun hc => hc.1 rfl), if_neg h]

theorem toNat_canonChar_false (c : Char) :
    (canonChar false c).toNat =
      if 65 ≤ c.toNat ∧ c.toNat ≤ 90 then c.toNat + 32 else c.toNat := by
  rw [canonChar]
  rw [if_neg (fun hc => by cases hc.1)]
  by_cases h : 65 ≤ c.toNat ∧ c.toNat ≤ 90
  · rw [if_pos ⟨by simp, h⟩, if_pos h]
    exact toNat_charOfNat (by omega)
  · rw [if_neg (fun hc => h hc.2), if_neg h]

theorem canonChar_lower (upper : Bool) (c : Char) :
    canonChar upper (asciiLowerChar c) = canonChar upper c := by
  apply charEq_of_toNat
  cases upper with
  | true =>
    simp only [toNat_canonChar_true, toNat_asciiLowerChar]
    split_ifs <;> omega
  | false =>
    simp only [toNat_canonChar_false, toNat_asciiLowerChar]
    split_ifs <;> omega

theorem asciiLower_canonChar (upper : Bool) (c : Char) :
    asciiLowerChar (canonChar upper c) = asciiLowerChar c := by
  apply charEq_of_toNat
  cases upper with
  | true =>
    simp only [toNat_asciiLowerChar, toNat_canonChar_true]
    split_ifs <;> omega
  | false =>
    simp only [toNat_asciiLowerChar, toNat_canonChar_false]
    split_ifs <;> omega

theorem validHeaderFieldByte_lower (c : Char) :
    validHeaderFieldByte (asciiLowerChar c) = validHeaderFieldByte c := by
  rw [validHeaderFieldByte, validHeaderFieldByte, decide_eq_decide,
    toNat_asciiLowerChar]
  split_ifs <;> constructor <;> intro <;> omega

theorem canonList_lower (upper : Bool) (l : List Char) :
    canonList upper (l.map asciiLowerChar) = canonList upper l := by
  induction l generalizing upper with
  | nil => rfl
  | cons c cs ih =>
    simp only [List.map_cons, canonList, canonChar_lower]
    rw [ih]

theorem map_lower_canonList (upper : Bool) (l : List Char) :
    (canonList upper l).map asciiLowerChar = l.map asciiLowerChar := by
  induction l generalizing upper with
  | nil => rfl
  | cons c cs ih =>
    simp only [canonList, List.map_cons, asciiLower_canonChar]
    rw [ih]

theorem all_valid_map_lower (l : List Char) :
    (l.map asciiLowerChar).all validHeaderFieldByte = l.all validHeaderFieldByte := by
  induction l with
  | nil => rfl
  | cons c cs ih => simp only [List.map_cons, List.all_cons, validHeaderFieldByte_lower, ih]

theorem lower_canonicalMIMEHeaderKey (n : String) :
    asciiLower (canonicalMIMEHeaderKey n) = asciiLower n := by
  rw [canonicalMIMEHeaderKey]
  split_ifs with hv
  · exact congrArg String.mk (map_lower_canonList true n.data)
  · rfl

theorem canonicalMIMEHeaderKey_eq_of_lower_eq {n h : String}
    (hvalid : h.data.all validHeaderFieldByte = true)
    (hlow : asciiLower n = asciiLower h) :
    canonicalMIMEHeaderKey n = canonicalMIMEHeaderKey h := by
  have hdata : n.data.map asciiLowerChar = h.data.map asciiLowerChar :=
    congrArg String.data hlow
  have hnv : n.data.all validHeaderFieldByte = true := by
    rw [← all_valid_map_lower, hdata, all_valid_map_lower]
    exact hvalid
  rw [canonicalMIMEHeaderKey, canonicalMIMEHeaderKey, if_pos hnv, if_pos hvalid]
  exact congrArg String.mk (by rw [← canonList_lower true n.data, hdata,
    canonList_lower true h.data])

/-- For a key already in canonical form, canonicalisation of an arbitrary wire
name hits it exactly when the two names agree up to ASCII case. -/
theorem canonicalMIMEHeaderKey_eq_iff {n h : String}
    (hvalid : h.data.all validHeaderFieldByte = true)
    (hcanon : canonicalMIMEHeaderKey h = h) :
    canonicalMIMEHeaderKey n = h ↔ asciiLower n = asciiLower h := by
  constructor
  · intro he
    rw [← lower_canonicalMIMEHeaderKey n, he]
  · intro hlow
    rw [canonicalMIMEHeaderKey_eq_of_lower_eq hvalid hlow, hcanon]

/-! ## Response header sets (net/http `http.Header`) -/

/-- A response header set: Go `http.Header`, i.e. `map[string][]string`. -/
abbrev Header := List (String × List String)

/-- A per-URL result: Go `map[string]bool` from header name to presence. -/
abbrev ResultMap := List (String × Bool)

/-- The aggregate per-URL results: Go `map[string]map[string]bool`. -/
abbrev CSVMap := List (String × ResultMap)

/-- How net/textproto builds a response header map from the raw wire
(name, value) pairs: each value is appended under the canonicalised key
(`m[CanonicalMIMEHeaderKey(name)] = append(m[key], value)`). -/
def buildHeader (pairs : List (String × String)) : Header :=
  pairs.foldl (fun m p =>
    let key := canonicalMIMEHeaderKey p.1
    AssocMap.insert m key ((AssocMap.lookup m key).getD [] ++ [p.2])) []

theorem isSome_lookup_buildHeader (pairs : List (String × String)) (key : String) :
    (AssocMap.lookup (buildHeader pairs) key).isSome =
      pairs.any (fun p => canonicalMIMEHeaderKey p.1 == key) := by
  suffices h : ∀ (l : List (String × String)) (m : Header),
      (AssocMap.lookup (l.foldl (fun m p =>
        let key := canonicalMIMEHeaderKey p.1
        AssocMap.insert m key ((AssocMap.lookup m key).getD [] ++ [p.2])) m) key).isSome =
      ((AssocMap.lookup m key).isSome || l.any (fun p => canonicalMIMEHeaderKey p.1 == key)) by
    rw [buildHeader, h]
    simp [AssocMap.lookup]
  intro l
  induction l with
  | nil => intro m; simp
  | cons p rest ih =>
    intro m
    simp only [List.foldl_cons, List.any_cons]
    rw [ih, AssocMap.isSome_lookup_insert]
    by_cases h : canonicalMIMEHeaderKey p.1 = key
    · simp [h]
    · have hb : (canonicalMIMEHeaderKey p.1 == key) = false := by
        simp [h]
      simp [hb, h]

/-! ## Source definitions from src/main.go -/

/-- The fixed list of security headers to check (`requiredHeaders`). -/
def requiredHeaders : List String :=
  ["Content-Security-Policy",
   "Strict-Transport-Security",
   "X-Frame-Options",
   "X-Content-Type-Options",
   "Referrer-Policy",
   "Permissions-Policy"]

/-- `checkHeaders`: for each required header name, the result map records
whether the response header map has an entry under that exact key
(`_, present := headers[header]`; the values are never read). -/
def checkHeaders (headers : Header) : ResultMap :=
  requiredHeaders.foldl (fun results header =>
    AssocMap.insert results header ((AssocMap.lookup headers header).isSome)) []

theorem insert_of_not_mem {β : Type} {m : List (String × β)} {k : String} (v : β)
    (h : ∀ p ∈ m, p.1 ≠ k) : AssocMap.insert m k v = m ++ [(k, v)] := by
  induction m with
  | nil => rfl
  | cons p rest ih =>
    have hp : p.1 ≠ k := h p (by simp)
    simp only [AssocMap.insert, if_neg hp, List.cons_append]
    rw [ih (fun q hq => h q (by simp [hq]))]

theorem foldl_insert_nodup {β : Type} (f : String → β) :
    ∀ (l : List String) (acc : List (String × β)), l.Nodup →
      (∀ k ∈ l, ∀ p ∈ acc, p.1 ≠ k) →
      l.foldl (fun m k => AssocMap.insert m k (f k)) acc =
        acc ++ l.map (fun k => (k, f k)) := by
  intro l
  induction l with
  | nil => intro acc _ _; simp
  | cons k rest ih =>
    intro acc hnd hdisj
    simp only [List.foldl_cons, List.map_cons]
    rw [insert_of_not_mem (f k) (fun p hp => hdisj k (by simp) p hp)]
    rw [ih (acc ++ [(k, f k)]) (List.Nodup.of_cons hnd)]
    · simp
    · intro k' hk' p hp
      rcases List.mem_append.1 hp with hp | hp
      · exact hdisj k' (by simp [hk']) p hp
      · simp at hp
        subst hp
        intro he
        apply (List.nodup_cons.1 hnd).1
        have hkk : k = k' := he
        rwa [hkk]

theorem checkHeaders_eq (headers : Header) :
    checkHeaders headers =
      requiredHeaders.map (fun h => (h, (AssocMap.lookup headers h).isSome)) := by
  rw [checkHeaders, foldl_insert_nodup _ requiredHeaders [] (by decide) (by simp)]
  simp

/-- Go `strings.HasPrefix(s, p)`: the first `len(p)` characters of `s` are
exactly `p`. -/
def goStartsWith (s p : String) : Bool :=
  s.data.take p.data.length == p.data

/-- The URL normalisation at the top of `fetchHeaders`: prefix `http://`
unless the string already starts with `http://` or `https://`. -/
def normalizeURL (url : String) : String :=
  if !(goStartsWith url "http://") && !(goStartsWith url "https://") then
    "http://" ++ url
  else url

/-- Go `unicode.IsSpace`, restricted to the scalar values with the Unicode
White_Space property (the set Go tests for). -/
def goIsSpace (c : Char) : Bool :=
  decide (c.toNat = 9 ∨ c.toNat = 10 ∨ c.toNat = 11 ∨ c.toNat = 12 ∨ c.toNat = 13 ∨
    c.toNat = 32 ∨ c.toNat = 133 ∨ c.toNat = 160 ∨ c.toNat = 5760 ∨
    (8192 ≤ c.toNat ∧ c.toNat ≤ 8202) ∨ c.toNat = 8232 ∨ c.toNat = 8233 ∨
    c.toNat = 8239 ∨ c.toNat = 8287 ∨ c.toNat = 12288)

/-- Go `strings.TrimSpace`: drop leading and trailing whitespace. -/
def goTrimSpace (s : String) : String :=
  String.mk (((s.data.dropWhile goIsSpace).reverse.dropWhile goIsSpace).reverse)

/-- `readURLsFromFile` after a successful read of the file contents: split on
newlines, trim each line, keep the non-empty ones in order. -/
def readURLsFromFile (data : String) : List String :=
  let lines := data.splitOn "\n"
  lines.foldl (fun urls line =>
    let trimmed := goTrimSpace line
    if trimmed ≠ "" then urls ++ [trimmed] else urls) []

/-- The URL list assembled in `main`: positional CLI arguments first, then
the file-supplied URLs when an input file was given (`none` models an empty
`--input` flag). -/
def assembleURLs (cliArgs : List String) (fileData : Option String) : List String :=
  match fileData with
  | none => cliArgs
  | some data => cliArgs ++ readURLsFromFile data

/-- `displayResults` (full mode): a heading line, then one line per entry of
the results map in the given iteration order.  The fatih/color wrappers
around Present/Missing only add terminal escape codes and are modelled as the
identity. -/
def displayResultsOut (url : String) (iter : ResultMap) : List String :=
  ("\nResults for " ++ url ++ ":\n") ::
  iter.map (fun p =>
    "  " ++ p.1 ++ ": " ++ (if p.2 then "Present" else "Missing") ++ "\n")

/-- The missing-only branch of the per-URL loop in `main`: collect the names
with a false flag in the given iteration order of the results map, and print
one line when the collection is non-empty. -/
def missingOnlyOut (url : String) (iter : ResultMap) : List String :=
  let missingHeaders := (iter.filter (fun p => !p.2)).map Prod.fst
  if 0 < missingHeaders.length then
    [url ++ " is missing: " ++ String.intercalate ", " missingHeaders ++ "\n"]
  else []

/-- The names collected by the missing-only loop for a given iteration order. -/
def missingNames (iter : ResultMap) : List String :=
  (iter.filter (fun p => !p.2)).map Prod.fst

/-- One data row of `writeResultsToCSV`: the URL, then Present/Missing per
required header (`headers[header]` reads false for an absent key). -/
def csvRow (p : String × ResultMap) : List String :=
  p.1 :: requiredHeaders.map (fun h =>
    if (AssocMap.lookup p.2 h).getD false then "Present" else "Missing")

/-- `writeResultsToCSV`: the header row `URL, <required headers>` followed by
one row per entry of the results map, in the given iteration order. -/
def writeResultsToCSV (iter : CSVMap) : List (List String) :=
  ("URL" :: requiredHeaders) :: iter.map csvRow

/-! ## The per-URL loop and `main` -/

/-- One URL of a program run: the URL string, the outcome of the single GET
issued for it (`Except.error` models a network/transport error), and the
iteration order the Go runtime picks when the per-URL result map is ranged
over for display. -/
structure Item where
  url : String
  fetchResult : Except String Header
  iterOrder : ResultMap

/-- The mutable state of the per-URL loop in `main`: GET requests issued so
far, stdout lines, log lines, and the `resultsForCSV` aggregate map. -/
structure LoopState where
  attempted : List String
  stdout : List String
  logs : List String
  resultsForCSV : CSVMap

/-- The `log.Printf` line for a failed fetch. -/
def errorLogLine (url err : String) : String :=
  "Error fetching headers for " ++ url ++ ": " ++ err ++ "\n"

/-- One iteration of the per-URL loop in `main`: fetch, on error log and
continue, otherwise record the results in `resultsForCSV` and print in the
selected display mode. -/
def stepURL (missingOnly : Bool) (st : LoopState) (it : Item) : LoopState :=
  let st1 := { st with attempted := st.attempted ++ [normalizeURL it.url] }
  match it.fetchResult with
  | .error e => { st1 with logs := st1.logs ++ [errorLogLine it.url e] }
  | .ok headers =>
    let results := checkHeaders headers
    let st2 := { st1 with
      resultsForCSV := AssocMap.insert st1.resultsForCSV it.url results }
    if missingOnly then
      { st2 with stdout := st2.stdout ++ missingOnlyOut it.url it.iterOrder }
    else
      { st2 with stdout := st2.stdout ++ displayResultsOut it.url it.iterOrder }

/-- The whole per-URL loop of `main`, starting from the empty state. -/
def processURLs (missingOnly : Bool) (items : List Item) : LoopState :=
  items.foldl (stepURL missingOnly) ⟨[], [], [], []⟩

/-- The usage string printed when no URLs were supplied. -/
def usageLine : String :=
  "Usage: go run main.go [--missing] [--skip-ssl] [--input=<file>] [--output=<file.csv>] <URL1> <URL2> ...\n"

/-- The `fmt.Printf` note after a successful CSV export. -/
def csvExportNote (outputFile : String) : String :=
  "\nResults exported to " ++ outputFile ++ "\n"

/-- Observable outcome of a program run. -/
structure RunOutcome where
  exitCode : Nat
  stdout : List String
  logs : List String
  attempted : List String
  csv : Option (List (List String))

/-- `main` after flag parsing and a successful input-file read: assemble the
URL list, print usage and exit 1 when it is empty, otherwise run the per-URL
loop and, when `--output` is set, export `resultsForCSV` using the iteration
order `csvIter` the Go runtime picks for the aggregate map. -/
def mainRun (missingOnly : Bool) (outputFile : String) (cliArgs : List String)
    (fileData : Option String) (items : List Item) (csvIter : CSVMap) :
    RunOutcome :=
  let urls := assembleURLs cliArgs fileData
  if urls = [] then
    { exitCode := 1, stdout := [usageLine], logs := [], attempted := [], csv := none }
  else
    let st := processURLs missingOnly items
    { exitCode := 0,
      stdout := st.stdout ++ (if outputFile ≠ "" then [csvExportNote outputFile] else []),
      logs := st.logs,
      attempted := st.attempted,
      csv := if outputFile ≠ "" then some (writeResultsToCSV csvIter) else none }

/-! ## Decomposition of the per-URL loop -/

/-- Concatenation of the lists produced per element. -/
def concatMap {α β : Type} (f : α → List β) : List α → List β
  | [] => []
  | x :: xs => f x ++ concatMap f xs

theorem concatMap_append {α β : Type} (f : α → List β) (l1 l2 : List α) :
    concatMap f (l1 ++ l2) = concatMap f l1 ++ concatMap f l2 := by
  induction l1 with
  | nil => rfl
  | cons x xs ih => simp [concatMap, ih]

/-- The stdout lines one URL contributes. -/
def itemStdout (missingOnly : Bool) (it : Item) : List String :=
  match it.fetchResult with
  | .error _ => []
  | .ok _ =>
    if missingOnly then missingOnlyOut it.url it.iterOrder
    else displayResultsOut it.url it.iterOrder

/-- The log lines one URL contributes. -/
def itemLogs (it : Item) : List String :=
  match it.fetchResult with
  | .error e => [errorLogLine it.url e]
  | .ok _ => []

/-- The `resultsForCSV` accumulation: one insert per successful fetch. -/
def accumCSV (acc : CSVMap) : List Item → CSVMap
  | [] => acc
  | it :: its =>
    match it.fetchResult with
    | .ok headers => accumCSV (AssocMap.insert acc it.url (checkHeaders headers)) its
    | .error _ => accumCSV acc its

theorem foldl_stepURL (missingOnly : Bool) (items : List Item) (st : LoopState) :
    items.foldl (stepURL missingOnly) st =
      { attempted := st.attempted ++ items.map (fun it => normalizeURL it.url),
        stdout := st.stdout ++ concatMap (itemStdout missingOnly) items,
        logs := st.logs ++ concatMap itemLogs items,
        resultsForCSV := accumCSV st.resultsForCSV items } := by
  induction items generalizing st with
  | nil => simp [concatMap, accumCSV]
  | cons it its ih =>
    rw [List.foldl_cons, ih]
    rcases it with ⟨u, fr, io⟩
    cases fr with
    | error e =>
      simp [stepURL, itemStdout, itemLogs, accumCSV, concatMap]
    | ok headers =>
      cases missingOnly <;>
        simp [stepURL, itemStdout, itemLogs, accumCSV, concatMap]

theorem processURLs_eq (missingOnly : Bool) (items : List Item) :
    processURLs missingOnly items =
      { attempted := items.map (fun it => normalizeURL it.url),
        stdout := concatMap (itemStdout missingOnly) items,
        logs := concatMap itemLogs items,
        resultsForCSV := accumCSV [] items } := by
  rw [processURLs, foldl_stepURL]
  simp

/-- Helper for the last-write-wins semantics of the aggregate map: the value
the accumulator holds for URL `u` after scanning `items`, starting from `o`. -/
def lastFrom (u : String) (o : Option Header) : List Item → Option Header
  | [] => o
  | it :: its =>
    match it.fetchResult with
    | .ok h => lastFrom u (if it.url = u then some h else o) its
    | .error _ => lastFrom u o its

/-- The response headers of the LAST successful fetch of a URL string, if
any (the value a Go map holds after repeated assignments to the same key). -/
def lastSuccessHeaders (items : List Item) (u : String) : Option Header :=
  lastFrom u none items

theorem lastFrom_isSome (u : String) :
    ∀ (items : List Item) (o : Option Header), o.isSome →
      (lastFrom u o items).isSome := by
  intro items
  induction items with
  | nil => intro o ho; exact ho
  | cons it its ih =>
    intro o ho
    rcases it with ⟨v, fr, io⟩
    cases fr with
    | error e => exact ih o ho
    | ok h =>
      simp only [lastFrom]
      apply ih
      by_cases hv : v = u <;> simp [hv, ho]

theorem accumCSV_lookup_gen (u : String) :
    ∀ (items : List Item) (m : CSVMap) (o : Option Header),
      (∀ h, o = some h → AssocMap.lookup m u = some (checkHeaders h)) →
      AssocMap.lookup (accumCSV m items) u =
        (match lastFrom u o items with
          | some h => some (checkHeaders h)
          | none => AssocMap.lookup m u) := by
  intro items
  induction items with
  | nil =>
    intro m o ho
    cases o with
    | none => simp [accumCSV, lastFrom]
    | some h => simp [accumCSV, lastFrom, ho h rfl]
  | cons it its ih =>
    intro m o ho
    rcases it with ⟨v, fr, io⟩
    cases fr with
    | error e =>
      simp only [accumCSV, lastFrom]
      exact ih m o ho
    | ok h =>
      simp only [accumCSV, lastFrom]
      by_cases hv : v = u
      · subst hv
        rw [if_pos rfl]
        rw [ih (AssocMap.insert m v (checkHeaders h)) (some h)
          (fun h' he => by
            cases he
            rw [AssocMap.lookup_insert, if_pos rfl])]
        cases hres : lastFrom v (some h) its with
        | none =>
          have := lastFrom_isSome v its (some h) (by simp)
          rw [hres] at this
          cases this
        | some h2 => rfl
      · simp only [if_neg hv]
        rw [ih (AssocMap.insert m v (checkHeaders h)) o
          (fun h' he => by
            rw [AssocMap.lookup_insert, if_neg hv]
            exact ho h' he)]
        cases hres : lastFrom u o its with
        | none => simp [AssocMap.lookup_insert, if_neg hv]
        | some h2 => simp

theorem mem_keys_insert {β : Type} (m : List (String × β)) (k u : String) (v : β) :
    u ∈ AssocMap.keys (AssocMap.insert m k v) ↔ u ∈ AssocMap.keys m ∨ u = k := by
  rw [AssocMap.keys_insert]
  split_ifs with h
  · constructor
    · exact Or.inl
    · rintro (h1 | rfl)
      · exact h1
      · exact h
  · simp

/-- Whether the fetch for this URL succeeded. -/
def Item.succeeded (it : Item) : Bool :=
  match it.fetchResult with
  | .ok _ => true
  | .error _ => false

/-- The URLs whose fetch succeeded, with multiplicity, in processing order. -/
def successURLs (items : List Item) : List String :=
  (items.filter Item.succeeded).map Item.url

theorem keys_accumCSV_nodup :
    ∀ (items : List Item) (m : CSVMap), (AssocMap.keys m).Nodup →
      (AssocMap.keys (accumCSV m items)).Nodup := by
  intro items
  induction items with
  | nil => intro m hm; exact hm
  | cons it its ih =>
    intro m hm
    rcases it with ⟨v, fr, io⟩
    cases fr with
    | error e => exact ih m hm
    | ok h =>
      simp only [accumCSV]
      apply ih
      rw [AssocMap.keys_insert]
      split_ifs with hmem
      · exact hm
      · simp [List.nodup_append, hm, hmem]

theorem mem_keys_accumCSV :
    ∀ (items : List Item) (m : CSVMap) (u : String),
      u ∈ AssocMap.keys (accumCSV m items) ↔
        u ∈ AssocMap.keys m ∨ u ∈ successURLs items := by
  intro items
  induction items with
  | nil => intro m u; simp [accumCSV, successURLs]
  | cons it its ih =>
    intro m u
    rcases it with ⟨v, fr, io⟩
    cases fr with
    | error e =>
      rw [accumCSV, ih]
      simp [successURLs, List.filter_cons, Item.succeeded]
    | ok h =>
      rw [accumCSV, ih, mem_keys_insert]
      simp only [successURLs, List.filter_cons]
      have : Item.succeeded ⟨v, Except.ok h, io⟩ = true := rfl
      rw [this]
      simp only [if_pos, List.map_cons, List.mem_cons]
      constructor
      · rintro ((h1 | h2) | h3)
        · exact Or.inl h1
        · exact Or.inr (Or.inl h2)
        · exact Or.inr (Or.inr (by simpa [successURLs] using h3))
      · rintro (h1 | (h2 | h3))
        · exact Or.inl (Or.inl h1)
        · exact Or.inl (Or.inr h2)
        · exact Or.inr (by simpa [successURLs] using h3)

theorem length_accumCSV_eq_dedup (items : List Item) :
    (accumCSV [] items).length = (successURLs items).dedup.length := by
  have h1 : (AssocMap.keys (accumCSV ([] : CSVMap) items)).Nodup :=
    keys_accumCSV_nodup items [] (by simp [AssocMap.keys])
  have h2 : (successURLs items).dedup.Nodup := List.nodup_dedup _
  have hperm : (AssocMap.keys (accumCSV ([] : CSVMap) items)).Perm
      (successURLs items).dedup := by
    rw [List.perm_ext_iff_of_nodup h1 h2]
    intro a
    rw [List.mem_dedup, mem_keys_accumCSV items [] a]
    simp [AssocMap.keys]
  have h3 : (AssocMap.keys (accumCSV ([] : CSVMap) items)).length =
      (accumCSV ([] : CSVMap) items).length := by
    simp [AssocMap.keys]
  rw [← h3, hperm.length_eq]

theorem filter_not_map_pair (l : List String) (f : String → Bool) :
    ((l.map (fun h => (h, f h))).filter (fun p => !p.2)).map Prod.fst =
      l.filter (fun h => !(f h)) := by
  induction l with
  | nil => rfl
  | cons h hs ih =>
    simp only [List.map_cons, List.filter_cons]
    cases hf : f h <;> simp [hf, ih]

/-! ## Definitions taken from the wording of the spec (for refinement claims) -/

/-- Modelled from the spec: the missing header names of a result map listed
in required-header-list order. -/
def specMissingNames (headers : Header) : List String :=
  requiredHeaders.filter (fun h => !((AssocMap.lookup headers h).isSome))

/-- Modelled from the spec: the missing-only output line with the names in
required-header-list order. -/
def specMissingOnlyOut (url : String) (results : ResultMap) : List String :=
  let missing := requiredHeaders.filter
    (fun h => !((AssocMap.lookup results h).getD false))
  if 0 < missing.length then
    [url ++ " is missing: " ++ String.intercalate ", " missing ++ "\n"]
  else []

/-- Modelled from the spec: CSV rows written in the order the URLs were
processed (the aggregate map in insertion order). -/
def specCSVRows (processedOrder : CSVMap) : List (List String) :=
  ("URL" :: requiredHeaders) :: processedOrder.map csvRow

/-- Modelled from the spec: scheme characters per RFC 3986 (letter, digit,
plus, minus, dot). -/
def isSchemeChar (c : Char) : Bool :=
  c.isAlpha || c.isDigit || c == '+' || c == '-' || c == '.'

/-- Modelled from the spec: a URL string "already has a scheme" when it
starts with a non-empty RFC 3986 scheme (a letter followed by scheme
characters) and a colon. -/
def hasScheme (s : String) : Bool :=
  match s.data.takeWhile (fun c => !(c == ':')) with
  | [] => false
  | c :: cs =>
    c.isAlpha && (c :: cs).all isSchemeChar &&
      decide ((c :: cs).length < s.data.length)

theorem goStartsWith_data {s p : String} (h : goStartsWith s p = true) :
    s.data = p.data ++ s.data.drop p.data.length := by
  rw [goStartsWith] at h
  have h2 : s.data.take p.data.length = p.data := eq_of_beq h
  conv_lhs => rw [← List.take_append_drop p.data.length s.data]
  rw [h2]

theorem hasScheme_of_http {url : String} (h : goStartsWith url "http://" = true) :
    hasScheme url = true := by
  have hd : url.data = ['h', 't', 't', 'p', ':', '/', '/'] ++ url.data.drop 7 := by
    have := goStartsWith_data h
    simpa using this
  rw [hasScheme, hd]
  simp +decide [List.takeWhile_cons, isSchemeChar]

theorem hasScheme_of_https {url : String} (h : goStartsWith url "https://" = true) :
    hasScheme url = true := by
  have hd : url.data = ['h', 't', 't', 'p', 's', ':', '/', '/'] ++ url.data.drop 8 := by
    have := goStartsWith_data h
    simpa using this
  rw [hasScheme, hd]
  simp +decide [List.takeWhile_cons, isSchemeChar]

theorem readURLsFromFile_eq (data : String) :
    readURLsFromFile data =
      ((data.splitOn "\n").map goTrimSpace).filter (fun t => t ≠ "") := by
  rw [readURLsFromFile]
  suffices h : ∀ (l : List String) (acc : List String),
      l.foldl (fun urls line =>
        let trimmed := goTrimSpace line
        if trimmed ≠ "" then urls ++ [trimmed] else urls) acc =
      acc ++ (l.map goTrimSpace).filter (fun t => t ≠ "") by
    rw [h (data.splitOn "\n") []]
    simp
  intro l
  induction l with
  | nil => intro acc; simp
  | cons x xs ih =>
    intro acc
    simp only [List.foldl_cons, List.map_cons, List.filter_cons]
    by_cases hx : goTrimSpace x ≠ ""
    · rw [if_pos hx, ih]
      simp [hx]
    · rw [if_neg hx, ih]
      simp at hx
      simp [hx]

/-! ## Support lemmas for the claims -/

theorem lookup_map_pair {β : Type} (l : List String) (f : String → β)
    (h : String) (hmem : h ∈ l) :
    AssocMap.lookup (l.map (fun k => (k, f k))) h = some (f h) := by
  induction l with
  | nil => cases hmem
  | cons k ks ih =>
    simp only [List.map_cons, AssocMap.lookup]
    by_cases hk : k = h
    · subst hk
      rw [if_pos rfl]
    · rw [if_neg hk]
      apply ih
      rcases List.mem_cons.1 hmem with rfl | hm
      · exact absurd rfl hk
      · exact hm

theorem lookup_checkHeaders (headers : Header) (h : String)
    (hmem : h ∈ requiredHeaders) :
    AssocMap.lookup (checkHeaders headers) h =
      some ((AssocMap.lookup headers h).isSome) := by
  rw [checkHeaders_eq]
  exact lookup_map_pair requiredHeaders _ h hmem

theorem isSome_lookup_eq_of_keys {β γ : Type} (m1 : List (String × β))
    (m2 : List (String × γ)) (hk : m1.map Prod.fst = m2.map Prod.fst)
    (k : String) :
    (AssocMap.lookup m1 k).isSome = (AssocMap.lookup m2 k).isSome := by
  induction m1 generalizing m2 with
  | nil =>
    cases m2 with
    | nil => rfl
    | cons q m2 => cases hk
  | cons p m1 ih =>
    cases m2 with
    | nil => cases hk
    | cons q m2 =>
      simp only [List.map_cons, List.cons.injEq] at hk
      simp only [AssocMap.lookup]
      rw [hk.1]
      by_cases hq : q.1 = k
      · simp [hq]
      · simp [hq, ih m2 hk.2]

/-! ## The claims -/

/-- C1: for every response header set, built as net/http builds it from the
raw wire (name, value) pairs, and every required header name, checkHeaders
reports true exactly when the response carries at least one value under that
name compared ASCII-case-insensitively; and checkHeaders never inspects the
header values (it depends only on the key list of the header map). -/
theorem checkHeaders_presence (pairs : List (String × String)) (hname : String)
    (hmem : hname ∈ requiredHeaders) :
    (AssocMap.lookup (checkHeaders (buildHeader pairs)) hname = some true ↔
      ∃ p ∈ pairs, asciiLower p.1 = asciiLower hname) ∧
    (∀ H1 H2 : Header, H1.map Prod.fst = H2.map Prod.fst →
      checkHeaders H1 = checkHeaders H2) := by
  have hvc : hname.data.all validHeaderFieldByte = true ∧
      canonicalMIMEHeaderKey hname = hname := by
    have hall : ∀ x ∈ requiredHeaders,
        x.data.all validHeaderFieldByte = true ∧ canonicalMIMEHeaderKey x = x := by
      decide
    exact hall hname hmem
  constructor
  · rw [lookup_checkHeaders (buildHeader pairs) hname hmem]
    simp only [Option.some.injEq]
    rw [isSome_lookup_buildHeader]
    rw [List.any_eq_true]
    constructor
    · rintro ⟨p, hp, he⟩
      rw [beq_iff_eq] at he
      exact ⟨p, hp, (canonicalMIMEHeaderKey_eq_iff hvc.1 hvc.2).1 he⟩
    · rintro ⟨p, hp, he⟩
      refine ⟨p, hp, ?_⟩
      rw [beq_iff_eq]
      exact (canonicalMIMEHeaderKey_eq_iff hvc.1 hvc.2).2 he
  · intro H1 H2 hkeys
    rw [checkHeaders_eq, checkHeaders_eq]
    apply List.map_congr_left
    intro h _
    rw [isSome_lookup_eq_of_keys H1 H2 hkeys h]

/-- Witness for C1: a response carrying the header under an all-lowercase
wire name is reported present under the canonical required name. -/
theorem checkHeaders_presence_witness :
    "Content-Security-Policy" ∈ requiredHeaders ∧
    AssocMap.lookup (checkHeaders (buildHeader [("content-security-policy", "v")]))
      "Content-Security-Policy" = some true :=
  ⟨by decide,
   (checkHeaders_presence [("content-security-policy", "v")]
      "Content-Security-Policy" (by decide)).1.mpr
    ⟨("content-security-policy", "v"), by decide, by decide⟩⟩

/-- C5: for every response header set the per-URL result map has exactly the
six required header names as keys, in order, each carrying the Boolean
presence flag of that header. -/
theorem checkHeaders_keys (headers : Header) :
    AssocMap.keys (checkHeaders headers) = requiredHeaders ∧
    requiredHeaders.length = 6 ∧
    (∀ h ∈ requiredHeaders, AssocMap.lookup (checkHeaders headers) h =
      some ((AssocMap.lookup headers h).isSome)) := by
  refine ⟨?_, by decide, fun h hm => lookup_checkHeaders headers h hm⟩
  rw [checkHeaders_eq]
  simp only [AssocMap.keys, List.map_map]
  exact List.map_id _

/-- Witness for C5 on the empty response header set. -/
theorem checkHeaders_keys_witness :
    AssocMap.keys (checkHeaders ([] : Header)) = requiredHeaders ∧
    AssocMap.lookup (checkHeaders ([] : Header)) "X-Frame-Options" = some false :=
  ⟨(checkHeaders_keys []).1,
   (checkHeaders_keys []).2.2 "X-Frame-Options" (by decide)⟩

/-- C6 counterexample: `ftp://example.com` already has a scheme, yet
`fetchHeaders` does not pass it through unchanged — it prefixes `http://`. -/
theorem normalizeURL_counterexample :
    hasScheme "ftp://example.com" = true ∧
    normalizeURL "ftp://example.com" = "http://ftp://example.com" ∧
    normalizeURL "ftp://example.com" ≠ "ftp://example.com" := by
  refine ⟨by decide, by decide, by decide⟩

/-- C6 amended: `fetchHeaders` passes a URL through unchanged exactly when it
starts with the literal prefix `http://` or `https://`; any other URL —
schemeless ones, but also URLs with a different scheme — gets `http://`
prefixed.  In particular a URL with no scheme at all is always prefixed. -/
theorem normalizeURL_amended (url : String) :
    ((goStartsWith url "http://" || goStartsWith url "https://") = true →
      normalizeURL url = url) ∧
    ((goStartsWith url "http://" || goStartsWith url "https://") = false →
      normalizeURL url = "http://" ++ url) ∧
    (hasScheme url = false → normalizeURL url = "http://" ++ url) := by
  refine ⟨?_, ?_, ?_⟩
  · intro h
    cases h1 : goStartsWith url "http://" <;>
      cases h2 : goStartsWith url "https://" <;>
      simp [normalizeURL, h1, h2] at h ⊢
  · intro h
    cases h1 : goStartsWith url "http://" <;>
      cases h2 : goStartsWith url "https://" <;>
      simp [normalizeURL, h1, h2] at h ⊢
  · intro h
    have h1 : goStartsWith url "http://" = false := by
      cases hh : goStartsWith url "http://"
      · rfl
      · rw [hasScheme_of_http hh] at h
        cases h
    have h2 : goStartsWith url "https://" = false := by
      cases hh : goStartsWith url "https://"
      · rfl
      · rw [hasScheme_of_https hh] at h
        cases h
    simp [normalizeURL, h1, h2]

/-- Witness for C6 amended: a schemeless host name gets the prefix. -/
theorem normalizeURL_amended_witness :
    normalizeURL "example.com" = "http://example.com" :=
  (normalizeURL_amended "example.com").2.2 (by decide)

/-- C7: the assembled URL list is the CLI arguments in order, followed by
the trimmed non-empty lines of the input file in file order (blank and
whitespace-only lines dropped); with no input file it is the CLI arguments
alone. -/
theorem assembleURLs_spec (cliArgs : List String) (data : String) :
    assembleURLs cliArgs (some data) =
      cliArgs ++ ((data.splitOn "\n").map goTrimSpace).filter (fun t => t ≠ "") ∧
    assembleURLs cliArgs none = cliArgs :=
  ⟨by simp [assembleURLs, readURLsFromFile_eq], rfl⟩

/-- C8: a run whose combined URL list is empty prints only the usage text,
exits with status 1, issues no GET request and writes no CSV. -/
theorem mainRun_empty_urls (missingOnly : Bool) (outputFile : String)
    (cliArgs : List String) (fileData : Option String) (items : List Item)
    (csvIter : CSVMap) (hempty : assembleURLs cliArgs fileData = []) :
    mainRun missingOnly outputFile cliArgs fileData items csvIter =
      { exitCode := 1, stdout := [usageLine], logs := [], attempted := [],
        csv := none } := by
  rw [mainRun]
  simp [hempty]

/-- Witness for C8: no CLI arguments and no input file. -/
theorem mainRun_empty_urls_witness :
    mainRun false "" [] none [] [] =
      { exitCode := 1, stdout := [usageLine], logs := [], attempted := [],
        csv := none } :=
  mainRun_empty_urls false "" [] none [] [] rfl

/-- C2 counterexample: with every required header missing, the reversed
results map is a legal Go iteration order, and missing-only mode then prints
the names in an order that is not the required-header-list order the claim
demands. -/
theorem missingOnly_order_counterexample :
    List.Perm ((checkHeaders ([] : Header)).reverse) (checkHeaders ([] : Header)) ∧
    missingOnlyOut "example.com" ((checkHeaders ([] : Header)).reverse) ≠
      specMissingOnlyOut "example.com" (checkHeaders ([] : Header)) := by
  exact ⟨List.reverse_perm _, by decide⟩

/-- C2 amended: in missing-only mode, for every successfully fetched URL and
every Go iteration order of its results map, zero missing headers produce no
output line, and N > 0 missing headers produce exactly one line carrying the
URL and exactly those N missing names, comma-separated — but in the
unspecified map iteration order, not necessarily required-header-list order. -/
theorem missingOnly_amended (headers : Header) (url : String) (iter : ResultMap)
    (hperm : List.Perm iter (checkHeaders headers)) :
    List.Perm (missingNames iter) (specMissingNames headers) ∧
    (missingNames iter = [] → missingOnlyOut url iter = []) ∧
    (missingNames iter ≠ [] →
      missingOnlyOut url iter =
        [url ++ " is missing: " ++
          String.intercalate ", " (missingNames iter) ++ "\n"]) := by
  have hout : missingOnlyOut url iter =
      if 0 < (missingNames iter).length then
        [url ++ " is missing: " ++
          String.intercalate ", " (missingNames iter) ++ "\n"]
      else [] := rfl
  refine ⟨?_, ?_, ?_⟩
  · have h1 : List.Perm (missingNames iter) (missingNames (checkHeaders headers)) :=
      (hperm.filter _).map _
    have h2 : missingNames (checkHeaders headers) = specMissingNames headers := by
      rw [missingNames, checkHeaders_eq, filter_not_map_pair, specMissingNames]
    rw [h2] at h1
    exact h1
  · intro h
    rw [hout, h]
    simp
  · intro h
    rw [hout, if_pos (List.length_pos.2 h)]

/-- Witness for C2 amended: the all-missing response with the reversed
iteration order. -/
theorem missingOnly_amended_witness :
    List.Perm (missingNames ((checkHeaders ([] : Header)).reverse))
      (specMissingNames ([] : Header)) ∧
    (missingNames ((checkHeaders ([] : Header)).reverse) = [] →
      missingOnlyOut "example.com" ((checkHeaders ([] : Header)).reverse) = []) ∧
    (missingNames ((checkHeaders ([] : Header)).reverse) ≠ [] →
      missingOnlyOut "example.com" ((checkHeaders ([] : Header)).reverse) =
        ["example.com" ++ " is missing: " ++
          String.intercalate ", "
            (missingNames ((checkHeaders ([] : Header)).reverse)) ++ "\n"]) :=
  missingOnly_amended [] "example.com" ((checkHeaders ([] : Header)).reverse)
    (List.reverse_perm _)

/-- A two-URL run with distinct URLs, for the CSV ordering counterexample. -/
def itemsAB : List Item :=
  [⟨"a.example", Except.ok [("X-Frame-Options", ["DENY"])], []⟩,
   ⟨"b.example", Except.ok [], []⟩]

/-- C3 counterexample: for the aggregate map produced by processing two URLs,
the reversed map is a legal Go iteration order, and exporting with it does
not list the rows in the order the URLs were processed. -/
theorem csv_order_counterexample :
    List.Perm ((processURLs false itemsAB).resultsForCSV.reverse)
      ((processURLs false itemsAB).resultsForCSV) ∧
    writeResultsToCSV ((processURLs false itemsAB).resultsForCSV.reverse) ≠
      specCSVRows ((processURLs false itemsAB).resultsForCSV) := by
  exact ⟨List.reverse_perm _, by decide⟩

/-- C3 amended: CSV export writes the header row followed by exactly one row
per URL of the aggregate mapping — a permutation of the processing-order
rows — but in the unspecified Go map iteration order rather than necessarily
the order the URLs were processed. -/
theorem writeResultsToCSV_amended (m : CSVMap) (iter : CSVMap)
    (hperm : List.Perm iter m) :
    writeResultsToCSV iter = ("URL" :: requiredHeaders) :: iter.map csvRow ∧
    List.Perm (iter.map csvRow) (m.map csvRow) ∧
    (writeResultsToCSV iter).length = 1 + m.length := by
  refine ⟨rfl, hperm.map _, ?_⟩
  simp [writeResultsToCSV, hperm.length_eq]
  omega

/-- Witness for C3 amended with a one-entry aggregate map. -/
theorem writeResultsToCSV_amended_witness :
    writeResultsToCSV [("a.example", checkHeaders [])] =
      ("URL" :: requiredHeaders) :: [("a.example", checkHeaders [])].map csvRow ∧
    List.Perm ([("a.example", checkHeaders [])].map csvRow)
      ([("a.example", checkHeaders [])].map csvRow) ∧
    (writeResultsToCSV [("a.example", checkHeaders [])]).length =
      1 + [("a.example", checkHeaders ([] : Header))].length :=
  writeResultsToCSV_amended [("a.example", checkHeaders [])]
    [("a.example", checkHeaders [])] (List.Perm.refl _)

theorem accumCSV_append (l1 l2 : List Item) :
    ∀ acc : CSVMap, accumCSV acc (l1 ++ l2) = accumCSV (accumCSV acc l1) l2 := by
  induction l1 with
  | nil => intro acc; rfl
  | cons it its ih =>
    intro acc
    rcases it with ⟨v, fr, io⟩
    cases fr with
    | error e => exact ih acc
    | ok h => exact ih (AssocMap.insert acc v (checkHeaders h))

/-- C4: for every run that exports CSV (non-empty URL list, `--output` set)
and every Go iteration order of the aggregate map, the CSV has one header
row plus exactly one row per distinct successfully fetched URL string, and
every data cell is literally Present or Missing. -/
theorem csv_shape (missingOnly : Bool) (outputFile : String)
    (cliArgs : List String) (fileData : Option String) (items : List Item)
    (csvIter : CSVMap)
    (hne : assembleURLs cliArgs fileData ≠ [])
    (hout : outputFile ≠ "")
    (hperm : List.Perm csvIter (processURLs missingOnly items).resultsForCSV) :
    ∃ rows,
      (mainRun missingOnly outputFile cliArgs fileData items csvIter).csv =
        some rows ∧
      rows.length = 1 + (successURLs items).dedup.length ∧
      (∀ row ∈ rows.tail, ∀ cell ∈ row.tail,
        cell = "Present" ∨ cell = "Missing") := by
  refine ⟨writeResultsToCSV csvIter, ?_, ?_, ?_⟩
  · rw [mainRun]
    simp [hne, hout]
  · have hlen : csvIter.length = (accumCSV [] items).length := by
      rw [hperm.length_eq, processURLs_eq]
    rw [writeResultsToCSV]
    simp only [List.length_cons, List.length_map]
    rw [hlen, length_accumCSV_eq_dedup]
    omega
  · intro row hrow cell hcell
    rw [writeResultsToCSV] at hrow
    simp only [List.tail_cons] at hrow
    rcases List.mem_map.1 hrow with ⟨p, hp, rfl⟩
    rw [csvRow] at hcell
    simp only [List.tail_cons] at hcell
    rcases List.mem_map.1 hcell with ⟨h, hh, rfl⟩
    split_ifs
    · exact Or.inl rfl
    · exact Or.inr rfl

/-- Witness for C4: a run of two URLs of which one fails. -/
theorem csv_shape_witness :
    ∃ rows,
      (mainRun false "out.csv" ["a.example", "b.example"] none
        [⟨"a.example", Except.ok [], []⟩,
         ⟨"b.example", Except.error "connection refused", []⟩]
        (processURLs false
          [⟨"a.example", Except.ok [], []⟩,
           ⟨"b.example", Except.error "connection refused", []⟩]).resultsForCSV).csv =
        some rows ∧
      rows.length = 1 + (successURLs
        [⟨"a.example", Except.ok [], []⟩,
         ⟨"b.example", Except.error "connection refused", []⟩]).dedup.length ∧
      (∀ row ∈ rows.tail, ∀ cell ∈ row.tail,
        cell = "Present" ∨ cell = "Missing") :=
  csv_shape false "out.csv" ["a.example", "b.example"] none
    [⟨"a.example", Except.ok [], []⟩,
     ⟨"b.example", Except.error "connection refused", []⟩]
    (processURLs false
      [⟨"a.example", Except.ok [], []⟩,
       ⟨"b.example", Except.error "connection refused", []⟩]).resultsForCSV
    (by decide) (by decide) (List.Perm.refl _)

/-- C9: a URL whose fetch fails with a transport error is logged and
contributes nothing to stdout or to the aggregate CSV map, and the rest of
the run proceeds exactly as if that URL were absent: one GET was attempted
for it, no retry happens, and no abort — the remaining URLs before and after
it are processed unchanged. -/
theorem fetch_failure_skip (missingOnly : Bool) (pre post : List Item)
    (u e : String) :
    processURLs missingOnly (pre ++ ⟨u, Except.error e, []⟩ :: post) =
      { attempted := (processURLs missingOnly pre).attempted ++ normalizeURL u ::
          (processURLs missingOnly post).attempted,
        stdout := (processURLs missingOnly (pre ++ post)).stdout,
        logs := (processURLs missingOnly pre).logs ++ errorLogLine u e ::
          (processURLs missingOnly post).logs,
        resultsForCSV := (processURLs missingOnly (pre ++ post)).resultsForCSV } := by
  rw [processURLs_eq, processURLs_eq, processURLs_eq, processURLs_eq]
  simp [concatMap_append, accumCSV_append, concatMap, itemStdout, itemLogs,
    accumCSV, List.map_append]

/-- A run fetching the same URL string twice, with different responses. -/
def itemsDup : List Item :=
  [⟨"dup.example", Except.ok [("X-Frame-Options", ["DENY"])], []⟩,
   ⟨"dup.example", Except.ok [], []⟩]

/-- C10: the aggregate CSV map is keyed by the URL string as given: its keys
are pairwise distinct, the entry stored for a URL is the result of the LAST
successful fetch of that URL string (later results overwrite earlier ones),
and under every legal iteration order the exported CSV carries at most one
data row per distinct URL string. -/
theorem csv_dedup (missingOnly : Bool) (items : List Item) (u : String) :
    (AssocMap.keys (processURLs missingOnly items).resultsForCSV).Nodup ∧
    AssocMap.lookup (processURLs missingOnly items).resultsForCSV u =
      (lastSuccessHeaders items u).map checkHeaders ∧
    (∀ iter, List.Perm iter (processURLs missingOnly items).resultsForCSV →
      ((writeResultsToCSV iter).tail.map List.head?).Nodup) := by
  have hres : (processURLs missingOnly items).resultsForCSV = accumCSV [] items := by
    rw [processURLs_eq]
  refine ⟨?_, ?_, ?_⟩
  · rw [hres]
    exact keys_accumCSV_nodup items [] (by simp [AssocMap.keys])
  · rw [hres, accumCSV_lookup_gen u items [] none (fun h he => by cases he)]
    rw [lastSuccessHeaders]
    cases lastFrom u none items <;> rfl
  · intro iter hiter
    have hkeys : (iter.map Prod.fst).Nodup := by
      have hnd : ((accumCSV ([] : CSVMap) items).map Prod.fst).Nodup :=
        keys_accumCSV_nodup items [] (by simp [AssocMap.keys])
      rw [hres] at hiter
      exact ((hiter.map Prod.fst).symm).nodup hnd
    have hrw : (writeResultsToCSV iter).tail.map List.head? =
        (iter.map Prod.fst).map some := by
      simp [writeResultsToCSV, csvRow, List.map_map]
    rw [hrw]
    exact hkeys.map (Option.some_injective _)

/-- Witness for C10 on a run that fetches the same URL twice: the stored
entry is the second (all-missing) result, and the CSV has a single data row. -/
theorem csv_dedup_witness :
    AssocMap.lookup (processURLs false itemsDup).resultsForCSV "dup.example" =
      (lastSuccessHeaders itemsDup "dup.example").map checkHeaders ∧
    ((writeResultsToCSV (processURLs false itemsDup).resultsForCSV).tail.map
      List.head?).Nodup :=
  ⟨(csv_dedup false itemsDup "dup.example").2.1,
   (csv_dedup false itemsDup "dup.example").2.2 _ (List.Perm.refl _)⟩
